import Mathlib

/-!
Verification of the mocktail mock generator against its specification.

The Go source (mocktail.go, syrup.go) is shallowly embedded below.  Types
from `go/types` are embedded as the inductive `GoType`, keeping exactly the
fields the generator reads; generator functions are translated one-to-one,
keeping their source names.  Receiver fields of the `Syrup` struct
(`PkgPath`, the method signature's variadic flag) are passed as explicit
leading arguments.  Go map mutation is modelled by explicit state passing,
and external collaborators (template execution, `gofmt`, the filesystem)
are modelled by their outcomes.
-/

namespace Mocktail

/-- Channel direction, embedding `types.ChanDir`. -/
inductive ChanDir where
  | sendRecv
  | sendOnly
  | recvOnly
deriving DecidableEq

/-- Embedding of the `go/types` type descriptors that the generator
inspects.  `named` keeps the owning package as an optional
(path, short name) pair (`t.Obj().Pkg()`), the result of `t.String()`
(`strForm`) and the bare name (`t.Obj().Name()`).  `struct` and
`interfaceShape` keep the result of `v.String()` because the generator
renders those verbatim; `struct` also keeps field types, which
the import collector walks. -/
inductive GoType where
  | basic (name : String)
  | slice (elem : GoType)
  | array (len : Nat) (elem : GoType)
  | map (key elem : GoType)
  | pointer (elem : GoType)
  | struct (strForm : String) (fields : List GoType)
  | interfaceShape (strForm : String)
  | signature (params results : List GoType)
  | chan (dir : ChanDir) (elem : GoType)
  | named (pkg : Option (String × String)) (strForm : String) (name : String)
  | typeParam (name : String)

/-- `true` exactly when the dynamic type is `*types.Signature`
(the `if _, ok := param.Type().(*types.Signature); ok` check). -/
def GoType.isSignature : GoType → Bool
  | .signature _ _ => true
  | _ => false

/-- Models `types.Type.String()` as far as the generator observes it: for
named types the stored string form is returned; composite types are
formatted from their parts in the `go/types` style. -/
def goTypeString : GoType → String
  | .basic n => n
  | .slice e => "[]" ++ goTypeString e
  | .array n e => "[" ++ toString n ++ "]" ++ goTypeString e
  | .map k e => "map[" ++ goTypeString k ++ "]" ++ goTypeString e
  | .pointer e => "*" ++ goTypeString e
  | .struct s _ => s
  | .interfaceShape s => s
  | .signature _ _ => "func(...)"
  | .chan _ e => "chan " ++ goTypeString e
  | .named _ s _ => s
  | .typeParam n => n

/-- A `types.Var`: a (possibly empty) name together with a type. -/
structure Var where
  name : String
  type : GoType

/-- `const contextType = "context.Context"` from mocktail.go. -/
def contextType : String := "context.Context"

/-- One method of an interface: name, parameter and result variables and
the signature's variadic flag. -/
structure GoMethod where
  name : String
  params : List Var
  results : List Var
  variadic : Bool

/-- The `Parameter` template struct from syrup.go. -/
structure Parameter where
  name : String
  type : String
  isContext : Bool
  position : Nat

/-- The `Result` template struct from syrup.go. -/
structure Result where
  name : String
  type : String

/-- The segment of a character list after its last `'/'` (the whole list
when no slash occurs).  Models `name[i+1:]` after
`i := strings.LastIndex(name, "/")` with `i > -1` in `getNamedTypeName`. -/
def lastSegment : List Char → List Char
  | [] => []
  | c :: rest =>
    if rest.contains '/' then lastSegment rest
    else if c = '/' then rest
    else c :: rest

/-- `Syrup.getNamedTypeName`: qualification of a named type.  `pkgPath` is
the receiver's `s.PkgPath`; `pkg` is `t.Obj().Pkg()` (`none` when the Go
code sees a nil package, e.g. for built-in named types). -/
def getNamedTypeName (pkgPath : String) (pkg : Option (String × String))
    (strForm name : String) : String :=
  match pkg with
  | some (path, pkgName) =>
    if path = pkgPath then name else pkgName ++ "." ++ name
  | none => String.mk (lastSegment strForm.data)

/-- The channel keyword chosen by `Syrup.getChanTypeName` from the
channel's direction. -/
def chanDirStr : ChanDir → String
  | .sendRecv => "chan"
  | .sendOnly => "chan<-"
  | .recvOnly => "<-chan"

mutual

/-- `Syrup.getTypeName`: renders a type descriptor as the textual type
expression used in generated code.  `pkgPath` is `s.PkgPath` and
`variadic` is `s.Signature.Variadic()`; `last` is the caller's
final-parameter-position flag.  `getChanTypeName` is inlined in the
`chan` branch. -/
def getTypeName (pkgPath : String) (variadic : Bool) : GoType → Bool → String
  | .basic n, _ => n
  | .slice e, last =>
    if variadic && last then "..." ++ getTypeName pkgPath variadic e false
    else "[]" ++ getTypeName pkgPath variadic e false
  | .map k e, _ =>
    "map[" ++ getTypeName pkgPath variadic k false ++ "]" ++
      getTypeName pkgPath variadic e false
  | .named pkg strForm name, _ => getNamedTypeName pkgPath pkg strForm name
  | .pointer e, _ => "*" ++ getTypeName pkgPath variadic e false
  | .struct strForm _, _ => strForm
  | .interfaceShape strForm, _ => strForm
  | .signature ps rs, _ =>
    let fn := "func(" ++ String.intercalate "," (getTupleTypes pkgPath variadic ps) ++ ")"
    if rs.length > 0 then
      fn ++ " (" ++ String.intercalate "," (getTupleTypes pkgPath variadic rs) ++ ")"
    else fn
  | .chan dir e, _ => chanDirStr dir ++ " " ++ getTypeName pkgPath variadic e false
  | .array n e, _ => "[" ++ toString n ++ "]" ++ getTypeName pkgPath variadic e false
  | .typeParam n, _ => n

/-- `Syrup.getTupleTypes`: renders every member type of a tuple. -/
def getTupleTypes (pkgPath : String) (variadic : Bool) : List GoType → List String
  | [] => []
  | t :: ts =>
    getTypeName pkgPath variadic t false :: getTupleTypes pkgPath variadic ts

end

/-- The single character `string(rune('a'+i))`. -/
def letterString (i : Nat) : String := String.mk [Char.ofNat (97 + i)]

/-- `getParamName` from syrup.go: the declared name, or the deterministic
placeholder `fmt.Sprintf("%sParam", string(rune('a'+i)))` when the
parameter is unnamed. -/
def getParamName (tVar : Var) (i : Nat) : String :=
  if tVar.name = "" then letterString i ++ "Param" else tVar.name

/-- `getResultName` from syrup.go: the declared name, or
`fmt.Sprintf("_r%s%d", string(rune('a'+i)), i)` when the result is
unnamed. -/
def getResultName (tVar : Var) (i : Nat) : String :=
  if tVar.name = "" then "_r" ++ letterString i ++ toString i else tVar.name

/-- The parameter loop of `Syrup.createFuncSignature`: renders every
non-context parameter type, with the Go loop's separator rule
(`if i+1 < params.Len()` appends `", "`, skipped entirely for context
parameters by `continue`). -/
def funcSigParams (pkgPath : String) (variadic : Bool) (total : Nat) :
    List Var → Nat → String
  | [], _ => ""
  | v :: rest, i =>
    let tail := funcSigParams pkgPath variadic total rest (i + 1)
    if goTypeString v.type == contextType then tail
    else
      getTypeName pkgPath variadic v.type (decide (i = total - 1)) ++
        (if i + 1 < total then ", " else "") ++ tail

/-- The result loop of `Syrup.createFuncSignature`. -/
def funcSigResults (pkgPath : String) (variadic : Bool) (total : Nat) :
    List Var → Nat → String
  | [], _ => ""
  | v :: rest, i =>
    getTypeName pkgPath variadic v.type false ++
      (if i + 1 < total then ", " else "") ++
      funcSigResults pkgPath variadic total rest (i + 1)

/-- `Syrup.createFuncSignature`; `results = none` models the nil tuple
passed for the TypedRun signature. -/
def createFuncSignature (pkgPath : String) (variadic : Bool)
    (params : List Var) (results : Option (List Var)) : String :=
  "func(" ++ funcSigParams pkgPath variadic params.length params 0 ++ ") " ++
    match results with
    | none => ""
    | some rs => "(" ++ funcSigResults pkgPath variadic rs.length rs 0 ++ ")"

/-- The `CombinedMockMethodData` template struct from syrup.go (the base
template fields, which are copied verbatim from the receiver, are
omitted). -/
structure CombinedMockMethodData where
  params : List Parameter
  results : List Result
  callArgs : List String
  onCallArgs : List String
  fnSignature : String
  isVariadic : Bool

/-- The parameter loop of `Syrup.MockMethod`: walks the parameters with
their index `i`, producing `paramsData`, `callArgs` and `onCallArgs`
exactly as the Go loop appends to them.  A context parameter gets the
blank name `"_"` and is added to `paramsData` only; any other parameter
is named by `getParamName`, appended to `callArgs`, and appended to
`onCallArgs` as `"mock.Anything"` when its type is a `*types.Signature`
and as its name otherwise. -/
def mockMethodParams (pkgPath : String) (variadic : Bool) (total : Nat) :
    List Var → Nat → List Parameter × List String × List String
  | [], _ => ([], [], [])
  | v :: rest, i =>
    let prev := mockMethodParams pkgPath variadic total rest (i + 1)
    let rendered := getTypeName pkgPath variadic v.type (decide (i = total - 1))
    if goTypeString v.type == contextType then
      (⟨"_", rendered, true, 0⟩ :: prev.1, prev.2.1, prev.2.2)
    else
      let name := getParamName v i
      let oca := if v.type.isSignature then "mock.Anything" else name
      (⟨name, rendered, false, 0⟩ :: prev.1, name :: prev.2.1, oca :: prev.2.2)

/-- The result loop of `Syrup.MockMethod`: every result is rendered with
the final-position flag `false`. -/
def mockResultsData (pkgPath : String) (variadic : Bool) :
    List Var → Nat → List Result
  | [], _ => []
  | v :: rest, i =>
    ⟨getResultName v i, getTypeName pkgPath variadic v.type false⟩ ::
      mockResultsData pkgPath variadic rest (i + 1)

/-- The data-building part of `Syrup.MockMethod` (template execution is an
external collaborator).  `variadic` is `s.Signature.Variadic()`. -/
def mockMethodData (pkgPath : String) (variadic : Bool)
    (params results : List Var) : CombinedMockMethodData :=
  let built := mockMethodParams pkgPath variadic params.length params 0
  { params := built.1
    results := mockResultsData pkgPath variadic results 0
    callArgs := built.2.1
    onCallArgs := built.2.2
    fnSignature := createFuncSignature pkgPath variadic params (some results)
    isVariadic := variadic }

/-- `strings.Contains(s, ".")` (the separator is a single character, so
substring containment coincides with character containment). -/
def hasDot (s : String) : Bool := s.data.contains '.'

/-- The comparison closure passed to `sort.Slice` in `quickGoImports`:
the empty separator sits between the dot-free block and the dotted
block, dot-free paths precede dotted ones, and ties break
lexicographically. -/
def goImportLess (a b : String) : Bool :=
  if a = "" then hasDot b
  else if b = "" then !hasDot a
  else if hasDot a && !hasDot b then false
  else if !hasDot a && hasDot b then true
  else decide (a < b)

/-- The non-strict order induced by `goImportLess`; `sort.Slice` leaves
the slice ordered by this relation. -/
def goImportLE (a b : String) : Prop := goImportLess b a = false

instance : DecidableRel goImportLE := fun a b =>
  inferInstanceAs (Decidable (goImportLess b a = false))

/-- `descPkg.Imports[k] = struct{}{}`: inserting a key into the import
set, modelled on a duplicate-free list. -/
def addImport (imports : List String) (k : String) : List String :=
  if k ∈ imports then imports else imports ++ [k]

/-- `quickGoImports` from syrup.go.  The Go function force-inserts three
keys into the (shared, hence mutated) `descPkg.Imports` map, copies the
keys after a leading `""` separator and sorts with `goImportLess`; since
that comparator is a strict total order (proved below), the result of
`sort.Slice` is the unique ordered permutation, modelled by
`List.insertionSort`.  Returns (sorted import list, import set after the
map mutation). -/
def quickGoImports (imports : List String) : List String × List String :=
  let mutated :=
    addImport (addImport (addImport imports "testing") "time")
      "github.com/stretchr/testify/mock"
  (List.insertionSort goImportLE ("" :: mutated), mutated)

mutual

/-- `getTypeImports` from mocktail.go: the package paths referenced by a
type, `""` standing for "no owning package".  The `struct` branch loops
over the fields appending each field's imports, which is the same
concatenation `getTupleImports` performs. -/
def getTypeImports : GoType → List String
  | .basic _ => [""]
  | .slice e => getTypeImports e
  | .array _ e => getTypeImports e
  | .struct _ fields => getTupleImports fields
  | .map k e => getTypeImports k ++ getTypeImports e
  | .named pkg _ _ =>
    match pkg with
    | none => [""]
    | some (path, _) => [path]
  | .pointer e => getTypeImports e
  | .interfaceShape _ => [""]
  | .signature ps rs => getTupleImports ps ++ getTupleImports rs
  | .chan _ _ => [""]
  | .typeParam _ => [""]

/-- `getTupleImports` from mocktail.go, for one tuple (the Go variadic
call on (params, results) is the concatenation of the two). -/
def getTupleImports : List GoType → List String
  | [] => []
  | t :: ts => getTypeImports t ++ getTupleImports ts

end

/-- `getMethodImports` from mocktail.go: the imports of the method's
parameter and result tuples, dropping the empty path and the owning
package's own path. -/
def getMethodImports (params results : List Var) (importPath : String) :
    List String :=
  (getTupleImports (params.map Var.type) ++
      getTupleImports (results.map Var.type)).filter
    fun imp => !(imp == "") && !(imp == importPath)

/-- An interface entry of the package model (`InterfaceDesc` in
mocktail.go); type parameters are kept as their names. -/
structure InterfaceDesc where
  name : String
  methods : List GoMethod
  typeParams : Option (List String)

/-- One object of a loaded package scope, as `processSingleFile` inspects
it: its name, its exportedness, and — when the object is a named type
whose underlying type is an interface — that interface's methods
(`none` otherwise). -/
structure ScopeObj where
  name : String
  exported : Bool
  ifaceMethods : Option (List GoMethod)

/-- The interface-collection loop of `processSingleFile` (mocktail.go):
exported named interface types become `InterfaceDesc` entries, appended
in scope order, and an entry is kept only when
`len(interfaceDesc.Methods) > 0`.  The single-file path never fills
`TypeParams`. -/
def processFileInterfaces : List ScopeObj → List InterfaceDesc
  | [] => []
  | o :: rest =>
    let tail := processFileInterfaces rest
    if o.exported then
      match o.ifaceMethods with
      | some ms => if ms.length > 0 then ⟨o.name, ms, none⟩ :: tail else tail
      | none => tail
    else tail

/-- What the type-loading collaborator reports for one annotation's
interface name in `walk` (mocktail.go): the name is absent from the
package scope, resolves to a non-interface type, or resolves to an
interface with the given type parameters and methods. -/
inductive Lookup where
  | notFound
  | notIface
  | iface (typeParams : Option (List String)) (methods : List GoMethod)

/-- The per-annotation step of `walk` (mocktail.go): a failed lookup is
logged and skipped (`continue`), a non-interface type aborts with an
error, and a found interface is appended to the accumulated
`packageDesc.Interfaces` — with no guard on its number of methods. -/
def walkInterfaceLookup (interfaces : List InterfaceDesc) (name : String)
    (lookup : Lookup) : Except String (List InterfaceDesc) :=
  match lookup with
  | .notFound => .ok interfaces
  | .notIface => .error ("type " ++ name ++ " is not an interface")
  | .iface tps ms => .ok (interfaces ++ [⟨name, ms, tps⟩])

/-- `srcMockFile` / `outputMockFile` / `outputExportedMockFile` selection
in `generate`. -/
def outputFile (exported : Bool) : String :=
  if exported then "mock_gen.go" else "mock_gen_test.go"

/-- One package model as `generate` consumes it, with the outcomes of its
external collaborators: `renderErr` is the first error of the render
steps (`writeImports`, `writeMockBase`, `MockMethod`, `Call`) if any,
and `formatErr` the error of `format.Source` on the rendered buffer. -/
structure PkgGen where
  fp : String
  renderErr : Option String
  formatErr : Option String

/-- The loop of `generate` (mocktail.go).  Go iterates the model map in
an arbitrary order; the list fixes one such order.  For each package the
buffer is rendered, formatted and then written to
`filepath.Join(filepath.Dir(fp), outputFile exported)` — modelled as the
pair (fp, file name) — before the next package is processed; the first
render or format error aborts the loop.  Returns (files written, error). -/
def generate (exported : Bool) :
    List PkgGen → List (String × String) × Option String
  | [] => ([], none)
  | p :: rest =>
    match p.renderErr with
    | some e => ([], some e)
    | none =>
      match p.formatErr with
      | some e => ([], some ("source: " ++ e))
      | none =>
        ((p.fp, outputFile exported) :: (generate exported rest).1,
          (generate exported rest).2)

/-- Position-enumeration of a variable list starting at index `i`
(property language for the claims, not part of the source). -/
def enumFrom : Nat → List Var → List (Nat × Var)
  | _, [] => []
  | i, v :: vs => (i, v) :: enumFrom (i + 1) vs

/-- The non-context parameters of a list, with their positions (property
language for the claims, not part of the source). -/
def nonCtxEnum (vs : List Var) (i : Nat) : List (Nat × Var) :=
  (enumFrom i vs).filter fun p => !(goTypeString p.2.type == contextType)

/-- The block an import is sorted into by `goImportLess`: dot-free paths,
then the empty separator, then dotted paths. -/
def importRank (s : String) : Nat :=
  if s = "" then 1 else if hasDot s then 2 else 0

theorem goImportLess_iff (a b : String) :
    goImportLess a b = true ↔
      importRank a < importRank b ∨ (importRank a = importRank b ∧ a < b) := by
  by_cases ha : a = ""
  · subst ha
    by_cases hb : b = ""
    · subst hb
      rw [show goImportLess "" "" = false from rfl]
      simp [importRank, lt_self_iff_false]
    · by_cases db : hasDot b = true
      · simp [goImportLess, importRank, hb, db]
      · simp [goImportLess, importRank, hb, db]
  · by_cases hb : b = ""
    · subst hb
      by_cases da : hasDot a = true
      · simp [goImportLess, importRank, ha, da]
      · simp [goImportLess, importRank, ha, da]
    · by_cases da : hasDot a = true <;> by_cases db : hasDot b = true <;>
        simp [goImportLess, importRank, ha, hb, da, db]

theorem not_goImportLess_iff (a b : String) :
    goImportLess a b = false ↔
      importRank b < importRank a ∨ (importRank a = importRank b ∧ b ≤ a) := by
  constructor
  · intro hf
    have hneg :
        ¬(importRank a < importRank b ∨ (importRank a = importRank b ∧ a < b)) := by
      rw [← goImportLess_iff, hf]; simp
    push_neg at hneg
    rcases lt_trichotomy (importRank a) (importRank b) with hr | hr | hr
    · have := hneg.1; omega
    · exact Or.inr ⟨hr, hneg.2 hr⟩
    · exact Or.inl hr
  · intro hr
    rw [← Bool.not_eq_true, goImportLess_iff]
    push_neg
    constructor
    · rcases hr with h1 | ⟨h2, _⟩ <;> omega
    · intro he
      rcases hr with h1 | ⟨h2, hle⟩
      · omega
      · exact hle

theorem goImportLE_iff (a b : String) :
    goImportLE a b ↔
      importRank a < importRank b ∨ (importRank a = importRank b ∧ a ≤ b) := by
  rw [goImportLE, not_goImportLess_iff]
  constructor
  · rintro (h | ⟨he, hle⟩)
    · exact Or.inl h
    · exact Or.inr ⟨he.symm, hle⟩
  · rintro (h | ⟨he, hle⟩)
    · exact Or.inl h
    · exact Or.inr ⟨he.symm, hle⟩

instance : IsTotal String goImportLE := by
  constructor
  intro a b
  rw [goImportLE_iff, goImportLE_iff]
  rcases lt_trichotomy (importRank a) (importRank b) with h | h | h
  · exact Or.inl (Or.inl h)
  · rcases le_total a b with hs | hs
    · exact Or.inl (Or.inr ⟨h, hs⟩)
    · exact Or.inr (Or.inr ⟨h.symm, hs⟩)
  · exact Or.inr (Or.inl h)

instance : IsTrans String goImportLE := by
  constructor
  intro a b c hab hbc
  rw [goImportLE_iff] at hab hbc ⊢
  rcases hab with h1 | ⟨e1, l1⟩ <;> rcases hbc with h2 | ⟨e2, l2⟩
  · exact Or.inl (lt_trans h1 h2)
  · exact Or.inl (e2 ▸ h1)
  · exact Or.inl (e1 ▸ h2)
  · exact Or.inr ⟨e1.trans e2, le_trans l1 l2⟩

instance : IsAntisymm String goImportLE := by
  constructor
  intro a b hab hba
  rw [goImportLE_iff] at hab hba
  rcases hab with h1 | ⟨e1, l1⟩ <;> rcases hba with h2 | ⟨e2, l2⟩
  · exact absurd h2 (by omega)
  · exact absurd h1 (by omega)
  · exact absurd h2 (by omega)
  · exact le_antisymm l1 l2

theorem mem_addImport (l : List String) (k x : String) :
    x ∈ addImport l k ↔ x ∈ l ∨ x = k := by
  unfold addImport
  split
  · next h =>
    constructor
    · exact Or.inl
    · rintro (hx | rfl)
      · exact hx
      · exact h
  · simp

theorem addImport_perm {l₁ l₂ : List String} (p : l₁.Perm l₂) (k : String) :
    (addImport l₁ k).Perm (addImport l₂ k) := by
  unfold addImport
  by_cases h : k ∈ l₁
  · rw [if_pos h, if_pos (p.mem_iff.mp h)]
    exact p
  · rw [if_neg h, if_neg fun hk => h (p.mem_iff.mpr hk)]
    exact p.append_right [k]

theorem mem_quickGoImports_snd (imps : List String) (x : String) :
    x ∈ (quickGoImports imps).2 ↔
      x ∈ imps ∨ x = "testing" ∨ x = "time" ∨
        x = "github.com/stretchr/testify/mock" := by
  simp only [quickGoImports, mem_addImport]
  tauto

theorem mem_quickGoImports_fst (imps : List String) (x : String) :
    x ∈ (quickGoImports imps).1 ↔
      x = "" ∨ x ∈ (quickGoImports imps).2 := by
  have hp := List.perm_insertionSort goImportLE ("" :: (quickGoImports imps).2)
  constructor
  · intro hx
    have := hp.mem_iff.mp hx
    simpa using this
  · intro hx
    apply hp.mem_iff.mpr
    simpa using hx

theorem quickGoImports_fst_sorted (imps : List String) :
    List.Sorted goImportLE (quickGoImports imps).1 :=
  List.sorted_insertionSort goImportLE _

theorem quickGoImports_snd_perm {l₁ l₂ : List String} (p : l₁.Perm l₂) :
    (quickGoImports l₁).2.Perm (quickGoImports l₂).2 :=
  addImport_perm (addImport_perm (addImport_perm p "testing") "time")
    "github.com/stretchr/testify/mock"

theorem quickGoImports_deterministic {l₁ l₂ : List String} (p : l₁.Perm l₂) :
    (quickGoImports l₁).1 = (quickGoImports l₂).1 := by
  apply List.eq_of_perm_of_sorted _ (quickGoImports_fst_sorted l₁)
    (quickGoImports_fst_sorted l₂)
  exact (List.perm_insertionSort goImportLE _).trans
    (((quickGoImports_snd_perm p).cons "").trans
      (List.perm_insertionSort goImportLE _).symm)

/-- C4: the rendered import list always contains the three force-included
paths (testing, time and the mocking library); every dot-free import path
precedes every dotted one, with lexicographic order inside each block
(the empty separator element excepted); and the rendered list is a
deterministic function of the import set — permuting the input set leaves
it unchanged. -/
theorem quickGoImports_rendered_list_spec (imps : List String) :
    ("testing" ∈ (quickGoImports imps).1 ∧ "time" ∈ (quickGoImports imps).1 ∧
      "github.com/stretchr/testify/mock" ∈ (quickGoImports imps).1)
    ∧ (quickGoImports imps).1.Pairwise
        (fun a b => a ≠ "" → b ≠ "" →
          (hasDot a = true → hasDot b = true) ∧ (hasDot a = hasDot b → a ≤ b))
    ∧ ∀ imps2, imps.Perm imps2 →
        (quickGoImports imps).1 = (quickGoImports imps2).1 := by
  refine ⟨⟨?_, ?_, ?_⟩, ?_, fun imps2 p => quickGoImports_deterministic p⟩
  · rw [mem_quickGoImports_fst, mem_quickGoImports_snd]; tauto
  · rw [mem_quickGoImports_fst, mem_quickGoImports_snd]; tauto
  · rw [mem_quickGoImports_fst, mem_quickGoImports_snd]; tauto
  · apply (quickGoImports_fst_sorted imps).imp
    intro a b h ha hb
    rw [goImportLE_iff] at h
    constructor
    · intro hda
      by_contra hdb
      rw [Bool.not_eq_true] at hdb
      simp [importRank, ha, hb, hda, hdb] at h
    · intro hde
      have hr : importRank a = importRank b := by
        simp [importRank, ha, hb, hde]
      rcases h with h1 | ⟨_, hle⟩
      · omega
      · exact hle

/-- Witness for C4: concrete evaluations discharging the hypotheses of
`quickGoImports_rendered_list_spec`. -/
theorem quickGoImports_rendered_list_spec_witness :
    "testing" ∈ (quickGoImports ["context"]).1 ∧
      (quickGoImports ["a", "b.c"]).1 = (quickGoImports ["b.c", "a"]).1 :=
  ⟨(quickGoImports_rendered_list_spec ["context"]).1.1,
    (quickGoImports_rendered_list_spec ["a", "b.c"]).2.2 ["b.c", "a"]
      (List.Perm.swap "b.c" "a" [])⟩

/-- C9 counterexample: rendering the imports of a package model whose
set of imports is empty mutates that set — afterwards it holds the three
force-included paths, so it no longer equals the import set model
building produced. -/
theorem quickGoImports_mutates_model :
    (quickGoImports []).2 =
        ["testing", "time", "github.com/stretchr/testify/mock"]
      ∧ (quickGoImports []).2 ≠ ([] : List String) := by
  constructor
  · rfl
  · intro h
    simp [quickGoImports, addImport] at h

/-- C9 (amended): the imports-rendering step mutates the package model's
set of imports by inserting exactly the three force-included paths: after
`quickGoImports` the set holds an element iff model building produced it
or it is one of the three, and a model already containing all three is
left unchanged. -/
theorem quickGoImports_mutation_spec (imps : List String) :
    (∀ x, x ∈ (quickGoImports imps).2 ↔
        x ∈ imps ∨ x = "testing" ∨ x = "time" ∨
          x = "github.com/stretchr/testify/mock")
    ∧ ("testing" ∈ imps → "time" ∈ imps →
        "github.com/stretchr/testify/mock" ∈ imps →
        (quickGoImports imps).2 = imps) := by
  refine ⟨fun x => mem_quickGoImports_snd imps x, fun h1 h2 h3 => ?_⟩
  simp [quickGoImports, addImport, h1, h2, h3]

/-- Witness for C9's amended theorem at a model already containing the
three forced imports. -/
theorem quickGoImports_mutation_spec_witness :
    (quickGoImports
        ["testing", "time", "github.com/stretchr/testify/mock"]).2 =
      ["testing", "time", "github.com/stretchr/testify/mock"] :=
  (quickGoImports_mutation_spec
      ["testing", "time", "github.com/stretchr/testify/mock"]).2
    (by decide) (by decide) (by decide)

theorem lastSegment_of_not_contains :
    ∀ {cs : List Char}, cs.contains '/' = false → lastSegment cs = cs
  | [], _ => rfl
  | c :: rest, h => by
    simp only [List.contains_cons, Bool.or_eq_false_iff] at h
    rw [lastSegment, h.2, if_neg]
    · rw [if_neg]
      intro hc
      rw [hc] at h
      simp at h
    · simp

/-- C1: qualification of a named type by the type-expression resolver: a
type owned by the enclosing package renders as its bare name; a type
owned by another package renders as that package's short name, a dot and
the type name; a type with no owning package renders through the
last-slash-segment fallback on its string form, which is the bare string
form itself whenever that form has no slash (the built-in named types). -/
theorem getNamedTypeName_qualification
    (pkgPath path pkgName strForm name : String) (variadic last : Bool) :
    (path = pkgPath →
      getTypeName pkgPath variadic
        (.named (some (path, pkgName)) strForm name) last = name)
    ∧ (path ≠ pkgPath →
      getTypeName pkgPath variadic
        (.named (some (path, pkgName)) strForm name) last =
          pkgName ++ "." ++ name)
    ∧ getTypeName pkgPath variadic (.named none strForm name) last =
        String.mk (lastSegment strForm.data)
    ∧ (strForm.data.contains '/' = false →
      getTypeName pkgPath variadic (.named none strForm name) last = strForm) := by
  refine ⟨fun h => ?_, fun h => ?_, rfl, fun h => ?_⟩
  · simp [getTypeName, getNamedTypeName, h]
  · simp [getTypeName, getNamedTypeName, h]
  · show String.mk (lastSegment strForm.data) = strForm
    rw [lastSegment_of_not_contains h]

/-- Witness for C1 at concrete named types: a same-package type, a
foreign type, and the built-in error type. -/
theorem getNamedTypeName_qualification_witness :
    getTypeName "example.com/app" false
        (.named (some ("example.com/app", "app")) "example.com/app.User" "User")
        false = "User"
    ∧ getTypeName "example.com/app" false
        (.named (some ("net/url", "url")) "net/url.URL" "URL") false = "url.URL"
    ∧ getTypeName "example.com/app" false (.named none "error" "error") false =
        "error" :=
  ⟨(getNamedTypeName_qualification "example.com/app" "example.com/app" "app"
      "example.com/app.User" "User" false false).1 rfl,
    (getNamedTypeName_qualification "example.com/app" "net/url" "url"
      "net/url.URL" "URL" false false).2.1 (by decide),
    (getNamedTypeName_qualification "example.com/app" "" "" "error" "error"
      false false).2.2.2 (by decide)⟩

theorem mockResultsData_types (pkgPath : String) (variadic : Bool) :
    ∀ (vs : List Var) (i : Nat),
      (mockResultsData pkgPath variadic vs i).map Result.type =
        vs.map fun v => getTypeName pkgPath variadic v.type false
  | [], _ => rfl
  | v :: vs, i => by
    simp [mockResultsData, mockResultsData_types pkgPath variadic vs (i + 1)]

/-- C2: a slice renders as `[]elem`, except that the slice at the final
parameter position of a variadic signature renders as `...elem`; a slice
at a non-final position always renders as `[]elem`, and result types are
always rendered with the final-position flag off, so slices in results
always render as `[]elem`. -/
theorem getTypeName_slice_variadic (pkgPath : String) (variadic last : Bool)
    (e : GoType) (results : List Var) :
    (getTypeName pkgPath variadic (.slice e) last =
      if variadic && last then "..." ++ getTypeName pkgPath variadic e false
      else "[]" ++ getTypeName pkgPath variadic e false)
    ∧ (last = false →
      getTypeName pkgPath variadic (.slice e) last =
        "[]" ++ getTypeName pkgPath variadic e false)
    ∧ (mockResultsData pkgPath variadic results 0).map Result.type =
        results.map fun v => getTypeName pkgPath variadic v.type false := by
  refine ⟨rfl, fun h => ?_, mockResultsData_types pkgPath variadic results 0⟩
  subst h
  simp [getTypeName]

/-- Witness for C2: a variadic string slice in final position renders
variadically; the same slice in non-final position keeps the slice
form. -/
theorem getTypeName_slice_variadic_witness :
    getTypeName "p" true (.slice (.basic "string")) true = "...string"
    ∧ getTypeName "p" true (.slice (.basic "string")) false = "[]string" := by
  refine ⟨?_, (getTypeName_slice_variadic "p" true false (.basic "string") []).2.1 rfl⟩
  rw [(getTypeName_slice_variadic "p" true true (.basic "string") []).1]
  rfl

/-- C5: an unnamed parameter at position `i` is named by the `i`-th
lowercase letter followed by `Param`, a function of the position alone;
an unnamed result uses the distinct `_r<letter><index>` pattern; and a
synthesized result name never equals a synthesized parameter name. -/
theorem name_synthesis_spec (v w : Var) (i j : Nat) :
    (v.name = "" → getParamName v i = letterString i ++ "Param")
    ∧ (v.name = "" → w.name = "" → getParamName v i = getParamName w i)
    ∧ (v.name = "" → getResultName v i = "_r" ++ letterString i ++ toString i)
    ∧ (v.name = "" → w.name = "" → getResultName v i ≠ getParamName w j) := by
  refine ⟨fun hv => ?_, fun hv hw => ?_, fun hv => ?_, fun hv hw => ?_⟩
  · rw [getParamName, if_pos hv]
  · rw [getParamName, if_pos hv, getParamName, if_pos hw]
  · rw [getResultName, if_pos hv]
  · rw [getResultName, if_pos hv, getParamName, if_pos hw]
    intro h
    have hd := congrArg String.data h
    rw [String.data_append, String.data_append, String.data_append] at hd
    have e1 : "_r".data = ['_', 'r'] := rfl
    have e2 : "Param".data = ['P', 'a', 'r', 'a', 'm'] := rfl
    have e3 : ∀ k, (letterString k).data = [Char.ofNat (97 + k)] := fun _ => rfl
    rw [e1, e2, e3, e3] at hd
    simp at hd

/-- Witness for C5 at the first position of a method with one anonymous
parameter and one anonymous result. -/
theorem name_synthesis_spec_witness :
    getParamName ⟨"", .basic "int"⟩ 0 = letterString 0 ++ "Param"
    ∧ getResultName ⟨"", .basic "int"⟩ 0 ≠ getParamName ⟨"", .basic "bool"⟩ 0 :=
  ⟨(name_synthesis_spec ⟨"", .basic "int"⟩ ⟨"", .basic "int"⟩ 0 0).1 rfl,
    (name_synthesis_spec ⟨"", .basic "int"⟩ ⟨"", .basic "bool"⟩ 0 0).2.2.2
      rfl rfl⟩

theorem mockMethodParams_spec (pkgPath : String) (variadic : Bool) (total : Nat) :
    ∀ (vs : List Var) (i : Nat),
      (mockMethodParams pkgPath variadic total vs i).1.length = vs.length
      ∧ (mockMethodParams pkgPath variadic total vs i).2.1 =
          (nonCtxEnum vs i).map (fun p => getParamName p.2 p.1)
      ∧ (mockMethodParams pkgPath variadic total vs i).2.2 =
          (nonCtxEnum vs i).map
            (fun p => if p.2.type.isSignature then "mock.Anything"
              else getParamName p.2 p.1)
  | [], i => by simp [mockMethodParams, nonCtxEnum, enumFrom]
  | v :: vs, i => by
    have ih := mockMethodParams_spec pkgPath variadic total vs (i + 1)
    by_cases hc : (goTypeString v.type == contextType) = true
    · simp [mockMethodParams, nonCtxEnum, enumFrom, hc, ih.1, ih.2.1, ih.2.2,
        List.filter]
    · simp [mockMethodParams, nonCtxEnum, enumFrom, hc, ih.1, ih.2.1, ih.2.2,
        List.filter]

/-- C6: for a method whose first parameter is context-like, the rendered
parameter list still has a slot for every parameter (the context slot
carrying the blank name and the context mark), while the call-matching
argument lists `CallArgs` and `OnCallArgs` omit the context parameter and
consist of exactly the non-context parameters in order. -/
theorem mockMethod_context_elision (pkgPath : String) (variadic : Bool)
    (v : Var) (rest results : List Var)
    (h : goTypeString v.type = contextType) :
    (mockMethodData pkgPath variadic (v :: rest) results).params.length =
        (v :: rest).length
    ∧ (mockMethodData pkgPath variadic (v :: rest) results).params.head?.map
        Parameter.name = some "_"
    ∧ (mockMethodData pkgPath variadic (v :: rest) results).params.head?.map
        Parameter.isContext = some true
    ∧ (mockMethodData pkgPath variadic (v :: rest) results).callArgs =
        (nonCtxEnum rest 1).map (fun p => getParamName p.2 p.1)
    ∧ (mockMethodData pkgPath variadic (v :: rest) results).onCallArgs =
        (nonCtxEnum rest 1).map
          (fun p => if p.2.type.isSignature then "mock.Anything"
            else getParamName p.2 p.1) := by
  have hbeq : (goTypeString v.type == contextType) = true := by
    rw [h]; simp
  have hs := mockMethodParams_spec pkgPath variadic (v :: rest).length
    (v :: rest) 0
  have hzero : nonCtxEnum (v :: rest) 0 = nonCtxEnum rest 1 := by
    simp [nonCtxEnum, enumFrom, List.filter, hbeq]
  refine ⟨?_, ?_, ?_, ?_, ?_⟩
  · exact hs.1
  · simp [mockMethodData, mockMethodParams, hbeq]
  · simp [mockMethodData, mockMethodParams, hbeq]
  · show (mockMethodParams pkgPath variadic (v :: rest).length (v :: rest) 0).2.1
      = _
    rw [hs.2.1, hzero]
  · show (mockMethodParams pkgPath variadic (v :: rest).length (v :: rest) 0).2.2
      = _
    rw [hs.2.2, hzero]

/-- Witness for C6 at a method `func(ctx context.Context)` with no other
parameter. -/
theorem mockMethod_context_elision_witness :
    (mockMethodData "p" false
        [⟨"ctx", .named (some ("context", "context")) "context.Context"
          "Context"⟩] []).callArgs = []
    ∧ (mockMethodData "p" false
        [⟨"ctx", .named (some ("context", "context")) "context.Context"
          "Context"⟩] []).params.head?.map Parameter.name = some "_" :=
  ⟨by
    rw [(mockMethod_context_elision "p" false
      ⟨"ctx", .named (some ("context", "context")) "context.Context"
        "Context"⟩ [] [] rfl).2.2.2.1]
    rfl,
    (mockMethod_context_elision "p" false
      ⟨"ctx", .named (some ("context", "context")) "context.Context"
        "Context"⟩ [] [] rfl).2.1⟩

/-- C10: in the call-matching data, `CallArgs` lists the names of all
non-context parameters in order, while `OnCallArgs` lists, for each
non-context parameter in order, the wildcard `mock.Anything` when the
parameter's type is a function type and the parameter's name
otherwise. -/
theorem mockMethod_onCallArgs_spec (pkgPath : String) (variadic : Bool)
    (params results : List Var) :
    (mockMethodData pkgPath variadic params results).callArgs =
        (nonCtxEnum params 0).map (fun p => getParamName p.2 p.1)
    ∧ (mockMethodData pkgPath variadic params results).onCallArgs =
        (nonCtxEnum params 0).map
          (fun p => if p.2.type.isSignature then "mock.Anything"
            else getParamName p.2 p.1) :=
  ⟨(mockMethodParams_spec pkgPath variadic params.length params 0).2.1,
    (mockMethodParams_spec pkgPath variadic params.length params 0).2.2⟩

/-- C3 counterexample: a method whose only parameter is context-like: the
collected import set is exactly the context package — the package of a
context-like parameter is NOT excluded by `getMethodImports`. -/
theorem getMethodImports_keeps_context :
    getMethodImports
        [⟨"ctx", .named (some ("context", "context")) "context.Context"
          "Context"⟩] [] "example.com/app" = ["context"]
    ∧ "context" ∈ getMethodImports
        [⟨"ctx", .named (some ("context", "context")) "context.Context"
          "Context"⟩] [] "example.com/app" := by
  refine ⟨rfl, ?_⟩
  rw [(rfl :
    getMethodImports
        [⟨"ctx", .named (some ("context", "context")) "context.Context"
          "Context"⟩] [] "example.com/app" = ["context"])]
  exact List.mem_singleton.mpr rfl

/-- C3 (amended): the import paths collected for a method are exactly the
package paths reached by the recursive traversal of its parameter and
result types, minus the empty path and the owning package's own path —
the package of a context-like parameter is included like any other
foreign package. -/
theorem getMethodImports_spec (params results : List Var)
    (importPath : String) :
    ∀ imp, imp ∈ getMethodImports params results importPath ↔
      (imp ∈ getTupleImports (params.map Var.type) ++
          getTupleImports (results.map Var.type)
        ∧ imp ≠ "" ∧ imp ≠ importPath) := by
  intro imp
  simp [getMethodImports, List.mem_filter]
  tauto

theorem processFileInterfaces_methods_pos :
    ∀ scope : List ScopeObj,
      ∀ d ∈ processFileInterfaces scope, 0 < d.methods.length
  | [] => by simp [processFileInterfaces]
  | o :: rest => by
    intro d hd
    simp only [processFileInterfaces] at hd
    split at hd
    · split at hd
      · next ms heq =>
        split at hd
        · next hlen =>
          rcases List.mem_cons.mp hd with rfl | hd
          · simpa using hlen
          · exact processFileInterfaces_methods_pos rest d hd
        · exact processFileInterfaces_methods_pos rest d hd
      · exact processFileInterfaces_methods_pos rest d hd
    · exact processFileInterfaces_methods_pos rest d hd

/-- C7 counterexample: on the annotation-walk path, a found interface
with zero methods IS appended to the package model (without error), so
an interface entry is added for it. -/
theorem walk_zero_method_interface_added :
    walkInterfaceLookup [] "Empty" (.iface none []) =
        Except.ok [⟨"Empty", [], none⟩]
    ∧ walkInterfaceLookup [] "Empty" (.iface none []) ≠
        Except.ok ([] : List InterfaceDesc) := by
  refine ⟨rfl, fun h => ?_⟩
  simp [walkInterfaceLookup] at h

/-- C7 (amended): on the single-source-file path every interface entry of
the model has at least one method (zero-method interfaces are dropped,
without error); on the annotation-walk path a found interface is appended
to the model even with zero methods, without error. -/
theorem zero_method_interface_spec (scope : List ScopeObj)
    (acc : List InterfaceDesc) (name : String)
    (tps : Option (List String)) :
    (∀ d ∈ processFileInterfaces scope, 0 < d.methods.length)
    ∧ walkInterfaceLookup acc name (.iface tps []) =
        Except.ok (acc ++ [⟨name, [], tps⟩]) :=
  ⟨processFileInterfaces_methods_pos scope, rfl⟩

/-- Witness for C7's amended theorem: a one-method exported interface on
the single-file path, and the walk path appending an empty interface. -/
theorem zero_method_interface_spec_witness :
    0 < ([⟨"M", [], [], false⟩] : List GoMethod).length
    ∧ walkInterfaceLookup [] "Empty" (.iface none []) =
        Except.ok [⟨"Empty", [], none⟩] :=
  ⟨(zero_method_interface_spec [⟨"I", true, some [⟨"M", [], [], false⟩]⟩]
      [] "Empty" none).1 ⟨"I", [⟨"M", [], [], false⟩], none⟩ (List.Mem.head _),
    (zero_method_interface_spec [] [] "Empty" none).2⟩

/-- C8 counterexample: a model with two packages where only the second
fails to format: the run aborts with an error, yet the first package's
output file has already been written — a format failure on one package
does not leave "no file written for any package". -/
theorem generate_partial_write :
    (generate false
        [⟨"a/mock_test.go", none, none⟩,
          ⟨"b/mock_test.go", none, some "expected declaration"⟩]).2.isSome =
      true
    ∧ (generate false
        [⟨"a/mock_test.go", none, none⟩,
          ⟨"b/mock_test.go", none, some "expected declaration"⟩]).1 =
        [("a/mock_test.go", "mock_gen_test.go")]
    ∧ (generate false
        [⟨"a/mock_test.go", none, none⟩,
          ⟨"b/mock_test.go", none, some "expected declaration"⟩]).1 ≠ [] := by
  refine ⟨rfl, rfl, fun h => ?_⟩
  exact List.cons_ne_nil _ _ h

/-- C8 (amended): `generate` is atomic per package, not across packages:
the files written are exactly those of the longest prefix of packages
whose render and format steps all succeed (so no file is written for a
failing package, and a package's file is written only from successfully
formatted content), and the run finishes without error iff every package
renders and formats successfully. -/
theorem generate_atomic_per_package (exported : Bool) :
    ∀ pkgs : List PkgGen,
      (generate exported pkgs).1 =
        (pkgs.takeWhile fun p =>
          p.renderErr == none && p.formatErr == none).map
          (fun p => (p.fp, outputFile exported))
      ∧ ((generate exported pkgs).2 = none ↔
          ∀ p ∈ pkgs, p.renderErr = none ∧ p.formatErr = none)
  | [] => by simp [generate]
  | p :: rest => by
    have ih := generate_atomic_per_package exported rest
    rcases hr : p.renderErr with _ | e
    · rcases hf : p.formatErr with _ | e
      · simp [generate, hr, hf, List.takeWhile_cons, ih.1, ih.2]
      · simp [generate, hr, hf, List.takeWhile_cons]
    · simp [generate, hr, List.takeWhile_cons]

/-- Witness for C8's amended theorem on a single successful package. -/
theorem generate_atomic_per_package_witness :
    (generate false [⟨"a/mock_test.go", none, none⟩]).2 = none :=
  (generate_atomic_per_package false [⟨"a/mock_test.go", none, none⟩]).2.mpr
    (by decide)

end Mocktail
